import Mathlib

/-!
# Verification of `lsst::log::Log` (src/Log.cc)

A shallow embedding of the logging facade of `Log.cc`: the default-logger
reference, the context push/pop operations, the configuration entry points,
level get/set, and the printf-style delivery path.

`std::string` is a list of characters.  The log4cxx backend the facade drives
is not part of the source file; the few operations of it that `Log.cc` calls
are modelled in the first section and every backend call the facade makes is
recorded in a trace, so that the order and number of calls can be stated.
-/

namespace LsstLog

/-- A `std::string`, as its sequence of characters. -/
abbrev Str := List Char

/-- Max message length for varargs/printf style logging (`#define MAX_LOG_MSG_LEN 1024`). -/
def MAX_LOG_MSG_LEN : Nat := 1024

/-- The string `"root"`: the name log4cxx gives to its root logger, and the
literal `Log.cc` compares logger names with. -/
def rootName : Str := ['r', 'o', 'o', 't']

/-- The string `".xml"` that `Log::configure(filename)` compares the extension with. -/
def xmlExt : Str := ['.', 'x', 'm', 'l']

/-! ## `std::string` operations used by the source -/

/-- The call `s.find(c)`: position of the first occurrence of `c`, `none` for `npos`. -/
def find : Str → Char → Option Nat
  | [], _ => none
  | x :: xs, c => if x = c then some 0 else (find xs c).map (· + 1)

/-- The call `s.find_last_of(c)` with a one-character set: position of the last
occurrence of `c`, `none` for `npos`. -/
def find_last_of : Str → Char → Option Nat
  | [], _ => none
  | x :: xs, c =>
    match find_last_of xs c with
    | some i => some (i + 1)
    | none => if x = c then some 0 else none

/-- The call `s.substr(pos, len)`, for `pos ≤ s.size()`. -/
def substr (s : Str) (pos len : Nat) : Str := (s.drop pos).take len

/-! ## The log4cxx backend, as far as `Log.cc` uses it -/

/-- Modelled from the spec: a `log4cxx::LoggerPtr` (the type is declared by the
backend, not under src/).  A handle is identified by the logger it points to:
the root logger, or the logger registered under a name. -/
inductive LoggerPtr where
  | root : LoggerPtr
  | named (name : Str) : LoggerPtr
  deriving DecidableEq, Repr

/-- Modelled from the spec: `Logger::getName()` of the backend; the root logger
is called `"root"` (the literal `Log.cc` tests for), a registered logger has the
name it was requested under. -/
def LoggerPtr.getName : LoggerPtr → Str
  | .root => rootName
  | .named n => n

/-- Modelled from the spec: the integer values of the backend levels
(`log4cxx::Level::*_INT`, declared by the backend headers). -/
def ALL_INT : Int := -2147483648
/-- Modelled from the spec: `log4cxx::Level::TRACE_INT`. -/
def TRACE_INT : Int := 5000
/-- Modelled from the spec: `log4cxx::Level::DEBUG_INT`. -/
def DEBUG_INT : Int := 10000
/-- Modelled from the spec: `log4cxx::Level::INFO_INT`. -/
def INFO_INT : Int := 20000
/-- Modelled from the spec: `log4cxx::Level::WARN_INT`. -/
def WARN_INT : Int := 30000
/-- Modelled from the spec: `log4cxx::Level::ERROR_INT`. -/
def ERROR_INT : Int := 40000
/-- Modelled from the spec: `log4cxx::Level::FATAL_INT`. -/
def FATAL_INT : Int := 50000
/-- Modelled from the spec: `log4cxx::Level::OFF_INT`. -/
def OFF_INT : Int := 2147483647

/-- The severities the spec enumerates: TRACE < DEBUG < INFO < WARN < ERROR < FATAL. -/
def definedLevels : List Int :=
  [TRACE_INT, DEBUG_INT, INFO_INT, WARN_INT, ERROR_INT, FATAL_INT]

/-- Modelled from the spec: `log4cxx::Level::toLevel(int)` followed by `toInt()`;
a level is represented by its integer.  Integers outside the defined set map
silently to the backend default, DEBUG (spec 4.1). -/
def toLevel (val : Int) : Int :=
  if val ∈ [ALL_INT, TRACE_INT, DEBUG_INT, INFO_INT, WARN_INT, ERROR_INT, FATAL_INT, OFF_INT]
  then val else DEBUG_INT

/-- Modelled from the spec: the state of the backend logger repository that
`Log.cc` observes.  `loggers` are the names registered so far, `levels` the
explicit levels of named loggers (no entry: unset), `rootLevel` the level of
the root logger (never unset), `threshold` the repository-wide threshold and
`rootAppenders` the number of appenders attached to the root logger. -/
structure Hierarchy where
  loggers : List Str
  levels : List (Str × Int)
  rootLevel : Int
  threshold : Int
  rootAppenders : Nat
  deriving DecidableEq, Repr

/-- One call from `Log.cc` into the backend that changes or delivers something. -/
inductive BackendCall where
  | resetConfiguration : BackendCall
  | basicConfigure : BackendCall
  | domConfigure (filename : Str) : BackendCall
  | propertyConfigure (filename : Str) : BackendCall
  | propertyConfigureProps (properties : Str) : BackendCall
  | forcedLog (logger : LoggerPtr) (level : Int) (msg filename funcname : Str)
      (lineno : Nat) : BackendCall
  deriving DecidableEq, Repr

/-- Modelled from the spec: what a configuration source, once parsed by the
backend, does to the repository (the parsers are backend code).  It may set the
root level and the threshold, declare named loggers with a level, and attach
appenders to the root logger; it never removes a logger. -/
structure Config where
  rootLevel : Option Int
  threshold : Option Int
  loggerLevels : List (Str × Int)
  rootAppenders : Nat
  deriving DecidableEq, Repr

/-- The process environment the configuration calls read. -/
structure Env where
  /-- value of `getenv("LSST_LOG_CONFIG")`, `none` when unset -/
  getenv : Option Str
  /-- whether `access(path, R_OK) == 0` -/
  access : Str → Bool
  /-- parsed content of an XML configuration file -/
  xmlFile : Str → Config
  /-- parsed content of a properties configuration file -/
  propFile : Str → Config
  /-- parsed content of an in-memory properties text -/
  propText : Str → Config

namespace Hierarchy

/-- Modelled from the spec: `log4cxx::Logger::getLogger(name)`: the logger
registered under `name`, registered now if it was not (idempotent). -/
def getLogger (h : Hierarchy) (name : Str) : LoggerPtr × Hierarchy :=
  (.named name, if name ∈ h.loggers then h else { h with loggers := name :: h.loggers })

/-- The proper dotted prefixes of a name, shortest first: `pre` is the part
already read.  A dot at position 0 yields no prefix. -/
def dotPrefixesAux : Str → Str → List Str
  | _, [] => []
  | pre, c :: cs =>
    if c = '.' ∧ pre ≠ [] then pre :: dotPrefixesAux (pre ++ [c]) cs
    else dotPrefixesAux (pre ++ [c]) cs

/-- The candidate ancestors of a name, nearest first: for `"w.x.y.z"` these are
`"w.x.y"`, `"w.x"`, `"w"`. -/
def dotPrefixes (name : Str) : List Str := (dotPrefixesAux [] name).reverse

/-- Modelled from the spec: `Logger::getParent()` of the backend: null for the
root logger; for a named logger the parent the registry records, which is the
nearest registered ancestor by dotted name, and the root logger when no
ancestor is registered.  When the name without its last segment is registered
this is the parent the spec names; `popContext` notes that it relies on loggers
not being re-parented between push and pop. -/
def getParent (h : Hierarchy) : LoggerPtr → Option LoggerPtr
  | .root => none
  | .named n =>
    match (dotPrefixes n).find? (· ∈ h.loggers) with
    | some p => some (.named p)
    | none => some .root

/-- Modelled from the spec: `Logger::getLevel()`: the explicit level of the
logger, `none` when unset (a null `LevelPtr`). -/
def getLevel (h : Hierarchy) : LoggerPtr → Option Int
  | .root => some h.rootLevel
  | .named n => h.levels.lookup n

/-- Modelled from the spec: `Logger::setLevel(level)` with a non-null level. -/
def setLevel (h : Hierarchy) (l : LoggerPtr) (level : Int) : Hierarchy :=
  match l with
  | .root => { h with rootLevel := level }
  | .named n => { h with levels := (n, level) :: h.levels }

/-- Modelled from the spec: `Logger::getEffectiveLevel()`: the logger's own
explicit level, else that of the nearest registered ancestor having one, else
the root level. -/
def getEffectiveLevel (h : Hierarchy) : LoggerPtr → Int
  | .root => h.rootLevel
  | .named n =>
    match ((n :: dotPrefixes n).filter (· ∈ h.loggers)).findSome? (h.levels.lookup ·) with
    | some l => l
    | none => h.rootLevel

/-- Modelled from the spec: `Logger::isEnabledFor(level)`: false when the
repository threshold is above `level`, else whether `level` is at least the
effective level. -/
def isEnabledFor (h : Hierarchy) (l : LoggerPtr) (level : Int) : Bool :=
  if h.threshold > level then false else decide (h.getEffectiveLevel l ≤ level)

/-- Modelled from the spec: `BasicConfigurator::resetConfiguration()`: root level
back to DEBUG, threshold back to ALL, every appender removed and every named
logger's level unset; registered loggers stay registered. -/
def resetConfiguration (h : Hierarchy) : Hierarchy :=
  { h with levels := [], rootLevel := DEBUG_INT, threshold := ALL_INT, rootAppenders := 0 }

/-- Modelled from the spec: `BasicConfigurator::configure()`: one console
appender is added to the root logger. -/
def basicConfigure (h : Hierarchy) : Hierarchy :=
  { h with rootAppenders := h.rootAppenders + 1 }

/-- Declares the loggers of a parsed configuration, in order. -/
def declareLoggers (h : Hierarchy) : List (Str × Int) → Hierarchy
  | [] => h
  | (n, l) :: rest => declareLoggers (((h.getLogger n).2).setLevel (.named n) l) rest

/-- Modelled from the spec: the effect of a backend parser run on a parsed
configuration. -/
def applyConfig (h : Hierarchy) (c : Config) : Hierarchy :=
  let h1 := { h with rootLevel := c.rootLevel.getD h.rootLevel,
                     threshold := c.threshold.getD h.threshold,
                     rootAppenders := h.rootAppenders + c.rootAppenders }
  declareLoggers h1 c.loggerLevels

end Hierarchy

/-! ## The facade state -/

/-- The process-wide state of the facade: the static `Log::defaultLogger`
(its `_logger` pointer), the backend repository, and the trace of backend
calls made so far, oldest first. -/
structure LogState where
  defaultLogger : LoggerPtr
  hier : Hierarchy
  calls : List BackendCall
  deriving DecidableEq, Repr

/-- The exceptions `Log.cc` throws. -/
inductive Exn where
  | invalid_argument (what : Str) : Exn
  deriving DecidableEq, Repr

namespace Log

/-- The function `Log::initLog()`: default logger initially set to root logger. -/
def initLog (st : LogState) : LogState :=
  { st with defaultLogger := .root }

/-- The call `log4cxx::BasicConfigurator::resetConfiguration()` made by the facade. -/
def resetConfiguration (st : LogState) : LogState :=
  { st with hier := st.hier.resetConfiguration,
            calls := st.calls ++ [.resetConfiguration] }

/-- The function `getFileExtension(filename)`. -/
def getFileExtension (filename : Str) : Str :=
  match find_last_of filename '.' with
  | none => []
  | some dotpos => substr filename dotpos (filename.length - dotpos)

/-- The function `Log::configure(std::string const& filename)`. -/
def configureFile (env : Env) (filename : Str) (st : LogState) : LogState :=
  let st := resetConfiguration st
  let st :=
    if getFileExtension filename = xmlExt then
      { st with hier := st.hier.applyConfig (env.xmlFile filename),
                calls := st.calls ++ [.domConfigure filename] }
    else
      { st with hier := st.hier.applyConfig (env.propFile filename),
                calls := st.calls ++ [.propertyConfigure filename] }
  initLog st

/-- The function `Log::configure()`. -/
def configure (env : Env) (st : LogState) : LogState :=
  let st0 := resetConfiguration st
  let basic : LogState :=
    -- Do basic configuration (only if not configured already?)
    let st1 :=
      if st0.hier.rootAppenders = 0 then
        { st0 with hier := st0.hier.basicConfigure, calls := st0.calls ++ [.basicConfigure] }
      else st0
    initLog st1
  -- if LSST_LOG_CONFIG is set then use that file
  match env.getenv with
  | some e => if e ≠ [] ∧ env.access e = true then configureFile env e st0 else basic
  | none => basic

/-- The function `Log::configure_prop(std::string const& properties)`. -/
def configure_prop (env : Env) (properties : Str) (st : LogState) : LogState :=
  let st := { st with hier := st.hier.applyConfig (env.propText properties),
                      calls := st.calls ++ [.propertyConfigureProps properties] }
  initLog st

/-- The function `Log::getDefaultLoggerName()`. -/
def getDefaultLoggerName (st : LogState) : Str :=
  let name := st.defaultLogger.getName
  if name = rootName then [] else name

/-- The function `Log::getLogger(std::string const& loggername)`. -/
def getLogger (loggername : Str) (st : LogState) : LoggerPtr × LogState :=
  if loggername = [] then (st.defaultLogger, st)
  else
    let r := st.hier.getLogger loggername
    (r.1, { st with hier := r.2 })

/-- The message of the first `std::invalid_argument` of `pushContext`. -/
def emptyNameMsg : Str :=
  "lsst::log::Log::pushContext(): empty context name is not allowed".toList

/-- The message prefix of the second `std::invalid_argument` of `pushContext`. -/
def multiLevelMsg : Str :=
  "lsst::log::Log::pushContext(): multi-level contexts are not allowed: ".toList

/-- The function `Log::pushContext(std::string const& name)`: the outcome (normal return or
the exception thrown) and the state after the call. -/
def pushContext (name : Str) (st : LogState) : Except Exn Unit × LogState :=
  -- can't handle empty names
  if name = [] then (.error (.invalid_argument emptyNameMsg), st)
  -- we do not allow multi-level context (logger1.logger2)
  else if find name '.' ≠ none then (.error (.invalid_argument (multiLevelMsg ++ name)), st)
  else
    -- Construct new default logger name
    let newName := st.defaultLogger.getName
    let newName := if newName = rootName then name else newName ++ ['.'] ++ name
    -- Update defaultLogger
    let r := st.hier.getLogger newName
    (.ok (), { st with defaultLogger := r.1, hier := r.2 })

/-- The function `Log::popContext()`. -/
def popContext (st : LogState) : LogState :=
  match st.hier.getParent st.defaultLogger with
  -- root logger does not have parent, stay at root instead
  | none => st
  | some parent => { st with defaultLogger := parent }

/-- The function `Log::setLevel(Log logger, int level)`. -/
def setLevel (logger : LoggerPtr) (level : Int) (st : LogState) : LogState :=
  { st with hier := st.hier.setLevel logger (toLevel level) }

/-- The function `Log::setLevel(std::string const& loggername, int level)`. -/
def setLevelByName (loggername : Str) (level : Int) (st : LogState) : LogState :=
  let r := getLogger loggername st
  setLevel r.1 level r.2

/-- The function `Log::getLevel(Log logger)`. -/
def getLevel (logger : LoggerPtr) (st : LogState) : Int :=
  match st.hier.getLevel logger with
  | some level => level
  | none => -1

/-- The function `Log::getLevel(std::string const& loggername)`. -/
def getLevelByName (loggername : Str) (st : LogState) : Int × LogState :=
  let r := getLogger loggername st
  (getLevel r.1 r.2, r.2)

/-- The function `Log::isEnabledFor(Log logger, int level)`. -/
def isEnabledFor (logger : LoggerPtr) (level : Int) (st : LogState) : Bool :=
  if st.hier.isEnabledFor logger (toLevel level) then true else false

/-- The function `Log::isEnabledFor(std::string const& loggername, int level)`. -/
def isEnabledForByName (loggername : Str) (level : Int) (st : LogState) : Bool × LogState :=
  let r := getLogger loggername st
  (isEnabledFor r.1 level r.2, r.2)

/-- The call `vsnprintf(msg, size, fmt, args)`: the bytes written to `msg` when
`rendering` is what `fmt` with `args` renders to in full: at most `size - 1`
bytes of it, then the terminating NUL. -/
def vsnprintf (size : Nat) (rendering : Str) : Str :=
  if size = 0 then [] else rendering.take (size - 1) ++ [Char.ofNat 0]

/-- The conversion of the `char` buffer to the `std::string` message argument
of `forcedLog`: the bytes before the first NUL. -/
def bufferToString (buf : Str) : Str := buf.takeWhile (· ≠ Char.ofNat 0)

/-- The function `Log::vlog`; `rendering` stands for `fmt` and `args`, as the full text they
render to. -/
def vlog (logger : LoggerPtr) (level : Int) (filename funcname : Str) (lineno : Nat)
    (rendering : Str) (st : LogState) : LogState :=
  let msg := vsnprintf MAX_LOG_MSG_LEN rendering
  { st with calls := st.calls ++
      [.forcedLog logger level (bufferToString msg) filename funcname lineno] }

/-- The function `Log::log(std::string const& loggername, ...)`. -/
def logByName (loggername : Str) (level : Int) (filename funcname : Str) (lineno : Nat)
    (rendering : Str) (st : LogState) : LogState :=
  let r := getLogger loggername st
  vlog r.1 level filename funcname lineno rendering r.2

/-- The function `Log::log(Log logger, ...)`. -/
def log (logger : LoggerPtr) (level : Int) (filename funcname : Str) (lineno : Nat)
    (rendering : Str) (st : LogState) : LogState :=
  vlog logger level filename funcname lineno rendering st

end Log

/-! ## Sequences of calls -/

/-- A call on the facade that can change the default logger or the repository. -/
inductive Op where
  | initLog : Op
  | configure : Op
  | configureFile (filename : Str) : Op
  | configure_prop (properties : Str) : Op
  | pushContext (name : Str) : Op
  | popContext : Op
  | getLogger (loggername : Str) : Op
  | setLevel (loggername : Str) (level : Int) : Op
  deriving DecidableEq, Repr

/-- The state after one call; an exception of `pushContext` is caught by the caller. -/
def Op.run (env : Env) (st : LogState) : Op → LogState
  | .initLog => Log.initLog st
  | .configure => Log.configure env st
  | .configureFile f => Log.configureFile env f st
  | .configure_prop p => Log.configure_prop env p st
  | .pushContext n => (Log.pushContext n st).2
  | .popContext => Log.popContext st
  | .getLogger n => (Log.getLogger n st).2
  | .setLevel n l => Log.setLevelByName n l st

/-- The state after a sequence of calls. -/
def runOps (env : Env) (st : LogState) (ops : List Op) : LogState :=
  ops.foldl (Op.run env) st

/-- A state is reachable when a sequence of calls leads to it from a state in
which the default logger is the root logger, as it is at process start and
after `initLog`. -/
def Reachable (env : Env) (st : LogState) : Prop :=
  ∃ st0 ops, st0.defaultLogger = LoggerPtr.root ∧ st = runOps env st0 ops

/-- The parent of a logger as the spec words it: the name with its last dotted
segment removed, the root logger when the name has one segment; the root
logger stays the root logger. -/
def parentByName : LoggerPtr → LoggerPtr
  | .root => .root
  | .named n =>
    match find_last_of n '.' with
    | none => .root
    | some i => .named (n.take i)

/-- An environment in which `LSST_LOG_CONFIG` is unset and every configuration
source attaches one appender to the root logger and declares nothing else. -/
def Env.unset : Env :=
  { getenv := none, access := fun _ => false,
    xmlFile := fun _ => ⟨none, none, [], 1⟩,
    propFile := fun _ => ⟨none, none, [], 1⟩,
    propText := fun _ => ⟨none, none, [], 1⟩ }

/-- The backend repository before anything was configured. -/
def Hierarchy.empty : Hierarchy :=
  { loggers := [], levels := [], rootLevel := DEBUG_INT, threshold := ALL_INT, rootAppenders := 0 }

/-- The facade state at process start: the default logger is the root logger. -/
def LogState.start : LogState :=
  { defaultLogger := .root, hier := Hierarchy.empty, calls := [] }

/-- The names the default logger can take: a dot-free segment that is
registered, or a registered name made of such a name, a dot and a dot-free
segment. -/
inductive Chain (reg : List Str) : Str → Prop where
  | base (s : Str) (hne : s ≠ []) (hdot : '.' ∉ s) (hreg : s ∈ reg) : Chain reg s
  | step (p s : Str) (hp : Chain reg p) (hdot : '.' ∉ s)
      (hreg : (p ++ '.' :: s) ∈ reg) : Chain reg (p ++ '.' :: s)

/-- The invariant of the default logger: it is the root logger or a logger
whose name is a chain of registered names. -/
def Inv (st : LogState) : Prop :=
  st.defaultLogger = LoggerPtr.root ∨
    ∃ n, st.defaultLogger = LoggerPtr.named n ∧ Chain st.hier.loggers n

/-! ## Facts about the string operations -/

theorem find_eq_none_iff (s : Str) (c : Char) : find s c = none ↔ c ∉ s := by
  induction s with
  | nil => simp [find]
  | cons x xs ih =>
    by_cases hx : x = c
    · simp [find, hx]
    · have hx2 : ¬ c = x := fun h => hx h.symm
      simp [find, hx, hx2, ih]

theorem find_last_of_eq_none_iff (s : Str) (c : Char) : find_last_of s c = none ↔ c ∉ s := by
  induction s with
  | nil => simp [find_last_of]
  | cons x xs ih =>
    by_cases hx : x = c
    · cases hr : find_last_of xs c <;> simp [find_last_of, hr, hx]
    · have hx2 : ¬ c = x := fun h => hx h.symm
      cases hr : find_last_of xs c with
      | none => simpa [find_last_of, hr, hx, hx2] using ih.mp hr
      | some i =>
        have : ¬ c ∉ xs := fun hn => by simp [ih.mpr hn] at hr
        simpa [find_last_of, hr, hx, hx2] using this

theorem find_last_of_append_cons (p s : Str) (c : Char) (hs : c ∉ s) :
    find_last_of (p ++ c :: s) c = some p.length := by
  induction p with
  | nil => simp [find_last_of, (find_last_of_eq_none_iff s c).mpr hs]
  | cons x xs ih => simp [find_last_of, ih]

theorem not_mem_xml : '.' ∉ (['x', 'm', 'l'] : Str) := by decide

theorem getFileExtension_eq_xml_iff (filename : Str) :
    Log.getFileExtension filename = xmlExt ↔ xmlExt <:+ filename := by
  constructor
  · intro h
    unfold Log.getFileExtension at h
    cases hd : find_last_of filename '.' with
    | none => rw [hd] at h; simp [xmlExt] at h
    | some i =>
      rw [hd] at h
      simp only [substr] at h
      have hlen : filename.length - i = (filename.drop i).length := by simp
      rw [hlen, List.take_length] at h
      rw [← h]
      exact List.drop_suffix i filename
  · rintro ⟨t, rfl⟩
    have hd : find_last_of (t ++ xmlExt) '.' = some t.length :=
      find_last_of_append_cons t ['x', 'm', 'l'] '.' not_mem_xml
    unfold Log.getFileExtension
    rw [hd]
    simp [substr, xmlExt]

/-! ## Context push: argument validation -/

/-- C1: for every state and every segment that is empty or contains a dot,
`pushContext(segment)` throws `std::invalid_argument` and the whole facade
state, the default logger included, is what it was before the call. -/
theorem pushContext_invalid_segment (st : LogState) (segment : Str)
    (h : segment = [] ∨ '.' ∈ segment) :
    (∃ what, (Log.pushContext segment st).1 = Except.error (Exn.invalid_argument what)) ∧
    (Log.pushContext segment st).2 = st ∧
    (Log.pushContext segment st).2.defaultLogger = st.defaultLogger := by
  by_cases he : segment = []
  · simp [Log.pushContext, he]
  · have hdot : '.' ∈ segment := h.resolve_left he
    have hf : find segment '.' ≠ none := fun hn => (find_eq_none_iff segment '.').mp hn hdot
    simp [Log.pushContext, he, hf]

theorem pushContext_invalid_segment_witness :
    (("a.b".toList = [] ∨ '.' ∈ "a.b".toList) ∧
      (∃ what, (Log.pushContext "a.b".toList LogState.start).1
          = Except.error (Exn.invalid_argument what)) ∧
      (Log.pushContext "a.b".toList LogState.start).2 = LogState.start ∧
      (Log.pushContext "a.b".toList LogState.start).2.defaultLogger
          = LogState.start.defaultLogger) :=
  ⟨by decide, pushContext_invalid_segment LogState.start "a.b".toList (by decide)⟩

/-! ## Configuration -/

/-- C6: for every file path, `getFileExtension(path)` equals `".xml"` exactly
when the path ends with `".xml"`, and `configure(path)` resets the backend and
then calls the XML parser when the path ends with `".xml"` and the properties
parser otherwise; paths without a dot, with an upper-case extension, or with
`.xml` only in a directory name go to the properties parser. -/
theorem configureFile_dispatch (env : Env) (st : LogState) (filePath : Str) :
    (Log.getFileExtension filePath = xmlExt ↔ xmlExt <:+ filePath) ∧
    (Log.configureFile env filePath st).calls =
      st.calls ++ [BackendCall.resetConfiguration,
        if xmlExt <:+ filePath then BackendCall.domConfigure filePath
        else BackendCall.propertyConfigure filePath] ∧
    (Log.configureFile env "log".toList st).calls =
      st.calls ++ [BackendCall.resetConfiguration, BackendCall.propertyConfigure "log".toList] ∧
    (Log.configureFile env "log.XML".toList st).calls =
      st.calls ++ [BackendCall.resetConfiguration,
        BackendCall.propertyConfigure "log.XML".toList] ∧
    (Log.configureFile env "dir.xml/conf".toList st).calls =
      st.calls ++ [BackendCall.resetConfiguration,
        BackendCall.propertyConfigure "dir.xml/conf".toList] := by
  have key : ∀ f : Str, (Log.configureFile env f st).calls =
      st.calls ++ [BackendCall.resetConfiguration,
        if xmlExt <:+ f then BackendCall.domConfigure f
        else BackendCall.propertyConfigure f] := by
    intro f
    by_cases hx : xmlExt <:+ f
    · have hg := (getFileExtension_eq_xml_iff f).mpr hx
      simp [Log.configureFile, Log.resetConfiguration, Log.initLog, hg, hx]
    · have hg : ¬ Log.getFileExtension f = xmlExt :=
        fun hg => hx ((getFileExtension_eq_xml_iff f).mp hg)
      simp [Log.configureFile, Log.resetConfiguration, Log.initLog, hg, hx]
  refine ⟨getFileExtension_eq_xml_iff filePath, key filePath, ?_, ?_, ?_⟩
  · rw [key]; rfl
  · rw [key]; rfl
  · rw [key]; rfl

theorem configure_resets_first (env : Env) (st : LogState) :
    ∃ rest, (Log.configure env st).calls = st.calls ++ BackendCall.resetConfiguration :: rest := by
  unfold Log.configure
  cases hg : env.getenv with
  | none =>
    simp only [Log.resetConfiguration, Log.initLog]
    split <;> simp
  | some e =>
    simp only [Log.resetConfiguration, Log.initLog, Log.configureFile]
    split
    · split <;> simp
    · split <;> simp

theorem configure_prop_calls (env : Env) (properties : Str) (st : LogState) :
    (Log.configure_prop env properties st).calls =
      st.calls ++ [BackendCall.propertyConfigureProps properties] := by
  simp [Log.configure_prop, Log.initLog]

/-- C7 (evaluation at the failing input): after a basic configuration, which
attaches a console appender, `configure_prop` hands the properties to the
parser without any `resetConfiguration` call, whereas `configure(filename)` on
the same state resets first. -/
theorem configure_prop_does_not_reset :
    (Log.configure_prop Env.unset "log4j.rootLogger=INFO".toList
        (Log.configure Env.unset LogState.start)).calls =
      [BackendCall.resetConfiguration, BackendCall.basicConfigure,
        BackendCall.propertyConfigureProps "log4j.rootLogger=INFO".toList] ∧
    (Log.configure Env.unset LogState.start).hier.rootAppenders = 1 ∧
    (Log.configureFile Env.unset "log.properties".toList
        (Log.configure Env.unset LogState.start)).calls =
      [BackendCall.resetConfiguration, BackendCall.basicConfigure,
        BackendCall.resetConfiguration,
        BackendCall.propertyConfigure "log.properties".toList] := by
  refine ⟨rfl, rfl, rfl⟩

/-- C8: whenever `LSST_LOG_CONFIG` is unset, empty, or names a file that is not
readable, and the root logger has no appender, `configure()` resets the
backend, applies the basic console configuration exactly once, calls no file
parser, and leaves the default logger at root, so that
`getDefaultLoggerName()` returns the empty string. -/
theorem configure_basic_fallback (env : Env) (st : LogState)
    (henv : env.getenv = none ∨ env.getenv = some [] ∨
      ∃ e, env.getenv = some e ∧ env.access e = false)
    (_happ : st.hier.rootAppenders = 0) :
    (Log.configure env st).calls =
      st.calls ++ [BackendCall.resetConfiguration, BackendCall.basicConfigure] ∧
    (Log.configure env st).hier.rootAppenders = 1 ∧
    (Log.configure env st).defaultLogger = LoggerPtr.root ∧
    Log.getDefaultLoggerName (Log.configure env st) = [] := by
  have hbasic : Log.configure env st =
      { defaultLogger := LoggerPtr.root,
        hier := st.hier.resetConfiguration.basicConfigure,
        calls := st.calls ++ [BackendCall.resetConfiguration, BackendCall.basicConfigure] } := by
    unfold Log.configure
    rcases henv with h | h | ⟨e, h, ha⟩
    · simp [h, Log.resetConfiguration, Log.initLog, Hierarchy.resetConfiguration]
    · simp [h, Log.resetConfiguration, Log.initLog, Hierarchy.resetConfiguration]
    · simp [h, ha, Log.resetConfiguration, Log.initLog, Hierarchy.resetConfiguration]
  rw [hbasic]
  refine ⟨rfl, ?_, rfl, ?_⟩
  · simp [Hierarchy.basicConfigure, Hierarchy.resetConfiguration]
  · simp [Log.getDefaultLoggerName, LoggerPtr.getName]

theorem configure_basic_fallback_witness :
    (Env.unset.getenv = none ∧ LogState.start.hier.rootAppenders = 0) ∧
    (Log.configure Env.unset LogState.start).calls =
      LogState.start.calls ++ [BackendCall.resetConfiguration, BackendCall.basicConfigure] ∧
    (Log.configure Env.unset LogState.start).hier.rootAppenders = 1 ∧
    (Log.configure Env.unset LogState.start).defaultLogger = LoggerPtr.root ∧
    Log.getDefaultLoggerName (Log.configure Env.unset LogState.start) = [] :=
  ⟨⟨rfl, rfl⟩, configure_basic_fallback Env.unset LogState.start (Or.inl rfl) rfl⟩

/-! ## Loggers by name and levels -/

theorem toLevel_defined (l : Int) (hl : l ∈ definedLevels) : toLevel l = l := by
  have hmem : l ∈ [ALL_INT, TRACE_INT, DEBUG_INT, INFO_INT, WARN_INT, ERROR_INT,
      FATAL_INT, OFF_INT] := by
    simp only [definedLevels, List.mem_cons, List.mem_singleton] at hl
    simp only [List.mem_cons, List.mem_singleton]
    tauto
  simp only [toLevel, if_pos hmem]

theorem getLogger_nonempty (n : Str) (st : LogState) (hn : n ≠ []) :
    (Log.getLogger n st).1 = LoggerPtr.named n ∧
    (Log.getLogger n st).2.hier.levels = st.hier.levels := by
  unfold Log.getLogger
  simp only [if_neg hn, Hierarchy.getLogger]
  constructor
  · trivial
  · split <;> rfl

/-- C9: for every non-empty logger name `n` and every defined level `l`, two
handles obtained by `getLogger(n)` denote the same logger, and after
`setLevel(h1, l)` both `getLevel(h2)` and `getLevel(n)` return `l`; a named
logger with no explicit level reports the unset sentinel -1, as every named
logger does at process start. -/
theorem getLogger_handles_share_level (st : LogState) (n : Str) (l : Int)
    (hn : n ≠ []) (hl : l ∈ definedLevels) :
    (Log.getLogger n (Log.getLogger n st).2).1 = (Log.getLogger n st).1 ∧
    Log.getLevel (Log.getLogger n (Log.getLogger n st).2).1
      (Log.setLevel (Log.getLogger n st).1 l (Log.getLogger n (Log.getLogger n st).2).2) = l ∧
    (Log.getLevelByName n
      (Log.setLevel (Log.getLogger n st).1 l (Log.getLogger n (Log.getLogger n st).2).2)).1 = l ∧
    (st.hier.levels.lookup n = none → (Log.getLevelByName n st).1 = -1) ∧
    (Log.getLevelByName n LogState.start).1 = -1 := by
  have h1 := getLogger_nonempty n st hn
  have h2 := getLogger_nonempty n (Log.getLogger n st).2 hn
  have hset : ∀ s : LogState,
      Log.getLevel (LoggerPtr.named n) (Log.setLevel (LoggerPtr.named n) l s) = l := by
    intro s
    simp [Log.getLevel, Log.setLevel, Hierarchy.getLevel, Hierarchy.setLevel, List.lookup,
      toLevel_defined l hl]
  have hbyname : ∀ s : LogState, (Log.getLevelByName n s).1 =
      (s.hier.levels.lookup n).getD (-1) := by
    intro s
    have hs1 := getLogger_nonempty n s hn
    simp only [Log.getLevelByName, Log.getLevel, hs1.1, Hierarchy.getLevel, hs1.2]
    cases List.lookup n s.hier.levels <;> rfl
  refine ⟨by rw [h2.1, h1.1], ?_, ?_, ?_, ?_⟩
  · rw [h2.1, h1.1]; exact hset _
  · rw [hbyname, h1.1]
    simp [Log.setLevel, Hierarchy.setLevel, List.lookup, toLevel_defined l hl]
  · intro hs
    rw [hbyname, hs]; rfl
  · rw [hbyname]; rfl

theorem getLogger_handles_share_level_witness :
    ("a.b.c".toList ≠ [] ∧ ERROR_INT ∈ definedLevels) ∧
    Log.getLevel (Log.getLogger "a.b.c".toList (Log.getLogger "a.b.c".toList LogState.start).2).1
      (Log.setLevel (Log.getLogger "a.b.c".toList LogState.start).1 ERROR_INT
        (Log.getLogger "a.b.c".toList (Log.getLogger "a.b.c".toList LogState.start).2).2)
      = ERROR_INT :=
  ⟨⟨by decide, by decide⟩,
    (getLogger_handles_share_level LogState.start "a.b.c".toList ERROR_INT
      (by decide) (by decide)).2.1⟩

/-- C10 (counterexample): after `pushContext("a")` from the start state the
empty name yields the logger `"a"`, not the root logger, and `setLevel("", ERROR)`
sets the level of `"a"` while the root logger keeps its level. -/
theorem getLogger_empty_after_push_not_root :
    (Log.getLogger [] (Log.pushContext "a".toList LogState.start).2).1
      = LoggerPtr.named "a".toList ∧
    (Log.getLogger [] (Log.pushContext "a".toList LogState.start).2).1 ≠ LoggerPtr.root ∧
    Log.getLevel LoggerPtr.root
      (Log.setLevelByName [] ERROR_INT (Log.pushContext "a".toList LogState.start).2)
      = DEBUG_INT ∧
    Log.getLevel (LoggerPtr.named "a".toList)
      (Log.setLevelByName [] ERROR_INT (Log.pushContext "a".toList LogState.start).2)
      = ERROR_INT := by
  decide

/-- C10 (amended): in every state the empty logger name denotes the current
default logger: `getLogger("")` returns it without touching the state, so
`setLevel("", l)`, `getLevel("")` and `isEnabledFor("", l)` act on the default
logger; the result is the root logger exactly when the default logger is root,
as it is right after `initLog`. -/
theorem getLogger_empty_is_default (st : LogState) (l : Int) :
    Log.getLogger [] st = (st.defaultLogger, st) ∧
    Log.setLevelByName [] l st = Log.setLevel st.defaultLogger l st ∧
    Log.getLevelByName [] st = (Log.getLevel st.defaultLogger st, st) ∧
    Log.isEnabledForByName [] l st = (Log.isEnabledFor st.defaultLogger l st, st) ∧
    ((Log.getLogger [] st).1 = LoggerPtr.root ↔ st.defaultLogger = LoggerPtr.root) ∧
    (Log.getLogger [] (Log.initLog st)).1 = LoggerPtr.root := by
  refine ⟨rfl, rfl, rfl, rfl, Iff.rfl, rfl⟩

/-! ## Delivery -/

theorem takeWhile_append_stop (p : Char → Bool) (l : Str) (a : Char) (ha : p a = false) :
    (l ++ [a]).takeWhile p = l.takeWhile p := by
  induction l with
  | nil => simp [List.takeWhile, ha]
  | cons x xs ih =>
    cases hx : p x <;> simp [List.takeWhile, hx, ih]

theorem takeWhile_all (p : Char → Bool) (l : Str) (h : ∀ x ∈ l, p x = true) :
    l.takeWhile p = l := by
  induction l with
  | nil => rfl
  | cons x xs ih =>
    have hx : p x = true := h x (List.mem_cons_self x xs)
    have hxs : ∀ y ∈ xs, p y = true := fun y hy => h y (List.mem_cons_of_mem x hy)
    simp [List.takeWhile, hx, ih hxs]

theorem bufferToString_vsnprintf (r : Str) :
    Log.bufferToString (Log.vsnprintf MAX_LOG_MSG_LEN r)
      = (r.take 1023).takeWhile (· ≠ Char.ofNat 0) := by
  simp only [Log.bufferToString, Log.vsnprintf, MAX_LOG_MSG_LEN]
  rw [if_neg (by decide)]
  exact takeWhile_append_stop _ _ _ (by simp)

/-- C4 (counterexample): the logger `"a"` has level ERROR, so it is not enabled
for DEBUG, yet `Log::log` at DEBUG formats the message and delivers one record
to the backend through `forcedLog`, by handle and by name. -/
theorem log_delivers_when_disabled :
    Log.isEnabledFor (LoggerPtr.named "a".toList) DEBUG_INT
      (Log.setLevelByName "a".toList ERROR_INT LogState.start) = false ∧
    (Log.log (LoggerPtr.named "a".toList) DEBUG_INT "f.cc".toList "main".toList 7
      "hello".toList (Log.setLevelByName "a".toList ERROR_INT LogState.start)).calls
      = [BackendCall.forcedLog (LoggerPtr.named "a".toList) DEBUG_INT "hello".toList
          "f.cc".toList "main".toList 7] ∧
    (Log.logByName "a".toList DEBUG_INT "f.cc".toList "main".toList 7
      "hello".toList (Log.setLevelByName "a".toList ERROR_INT LogState.start)).calls
      = [BackendCall.forcedLog (LoggerPtr.named "a".toList) DEBUG_INT "hello".toList
          "f.cc".toList "main".toList 7] := by
  refine ⟨by decide, by decide, by decide⟩

/-- C4 (amended): `Log::log` makes no enablement check of its own: for every
logger, given by handle or by name, every level, location and rendering, it
formats the message and delivers exactly one record to the backend through
`forcedLog`, whatever `isEnabledFor` says for that logger and level. -/
theorem log_always_forwards (logger : LoggerPtr) (loggername : Str) (level : Int)
    (filename funcname : Str) (lineno : Nat) (rendering : Str) (st : LogState) :
    (Log.log logger level filename funcname lineno rendering st).calls =
      st.calls ++ [BackendCall.forcedLog logger level
        (Log.bufferToString (Log.vsnprintf MAX_LOG_MSG_LEN rendering))
        filename funcname lineno] ∧
    (Log.logByName loggername level filename funcname lineno rendering st).calls =
      st.calls ++ [BackendCall.forcedLog (Log.getLogger loggername st).1 level
        (Log.bufferToString (Log.vsnprintf MAX_LOG_MSG_LEN rendering))
        filename funcname lineno] := by
  constructor
  · rfl
  · simp only [Log.logByName, Log.vlog, Log.getLogger]
    split <;> rfl

/-- C5 (counterexample): the rendering of `"a%cb"` with the character 0 has
three bytes, fewer than 1024, but the message handed to the backend is `"a"`,
the bytes before the NUL, not the rendering itself. -/
theorem vlog_embedded_nul_cut :
    (['a', Char.ofNat 0, 'b'] : Str).length < MAX_LOG_MSG_LEN ∧
    (Log.vlog LoggerPtr.root INFO_INT [] [] 0 ['a', Char.ofNat 0, 'b'] LogState.start).calls
      = [BackendCall.forcedLog LoggerPtr.root INFO_INT ['a'] [] [] 0] ∧
    (['a'] : Str) ≠ ['a', Char.ofNat 0, 'b'] := by
  refine ⟨by decide, by decide, by decide⟩

/-- C5 (amended): for every rendering `r`, `Log::vlog` hands the backend the
bytes of the first 1023 bytes of `r` that precede the first NUL byte; this
message is never longer than 1023 bytes and the buffer written, terminator
included, never exceeds 1024 bytes; when `r` contains no NUL byte the message
is `r` itself if `r` has fewer than 1024 bytes and otherwise exactly the first
1023 bytes of `r`. -/
theorem vlog_message_bounded (logger : LoggerPtr) (level : Int) (filename funcname : Str)
    (lineno : Nat) (r : Str) (st : LogState) :
    (Log.vlog logger level filename funcname lineno r st).calls =
      st.calls ++ [BackendCall.forcedLog logger level
        ((r.take 1023).takeWhile (· ≠ Char.ofNat 0)) filename funcname lineno] ∧
    ((r.take 1023).takeWhile (· ≠ Char.ofNat 0)).length ≤ 1023 ∧
    (Log.vsnprintf MAX_LOG_MSG_LEN r).length ≤ MAX_LOG_MSG_LEN ∧
    (Char.ofNat 0 ∉ r →
      (Log.vlog logger level filename funcname lineno r st).calls =
        st.calls ++ [BackendCall.forcedLog logger level
          (if r.length < MAX_LOG_MSG_LEN then r else r.take 1023)
          filename funcname lineno]) := by
  have hcalls : (Log.vlog logger level filename funcname lineno r st).calls =
      st.calls ++ [BackendCall.forcedLog logger level
        ((r.take 1023).takeWhile (· ≠ Char.ofNat 0)) filename funcname lineno] := by
    simp only [Log.vlog, bufferToString_vsnprintf]
  refine ⟨hcalls, ?_, ?_, ?_⟩
  · calc ((r.take 1023).takeWhile (· ≠ Char.ofNat 0)).length
        ≤ (r.take 1023).length := (List.takeWhile_sublist _).length_le
      _ ≤ 1023 := by simp
  · simp [Log.vsnprintf, MAX_LOG_MSG_LEN]
  · intro hr
    have hall : ((r.take 1023).takeWhile (· ≠ Char.ofNat 0)) = r.take 1023 := by
      apply takeWhile_all
      intro x hx
      have hxr : x ∈ r := List.mem_of_mem_take hx
      have : x ≠ Char.ofNat 0 := fun h => hr (h ▸ hxr)
      simpa using this
    rw [hcalls, hall]
    by_cases hlen : r.length < MAX_LOG_MSG_LEN
    · have : r.take 1023 = r := List.take_of_length_le (by simp [MAX_LOG_MSG_LEN] at hlen; omega)
      rw [if_pos hlen, this]
    · rw [if_neg hlen]

theorem vlog_message_bounded_witness :
    Char.ofNat 0 ∉ "hello".toList ∧
    (Log.vlog LoggerPtr.root INFO_INT [] [] 0 "hello".toList LogState.start).calls =
      LogState.start.calls ++ [BackendCall.forcedLog LoggerPtr.root INFO_INT
        (if "hello".toList.length < MAX_LOG_MSG_LEN then "hello".toList
          else "hello".toList.take 1023) [] [] 0] :=
  ⟨by decide,
    (vlog_message_bounded LoggerPtr.root INFO_INT [] [] 0 "hello".toList LogState.start).2.2.2
      (by decide)⟩

/-! ## The parent recorded by the registry -/

theorem dotPrefixesAux_append (a b pre : Str) :
    Hierarchy.dotPrefixesAux pre (a ++ b) =
      Hierarchy.dotPrefixesAux pre a ++ Hierarchy.dotPrefixesAux (pre ++ a) b := by
  induction a generalizing pre with
  | nil => simp [Hierarchy.dotPrefixesAux]
  | cons x xs ih =>
    have hpre : pre ++ x :: xs = pre ++ [x] ++ xs := by simp
    have hcons : x :: xs ++ b = x :: (xs ++ b) := rfl
    rw [hcons, Hierarchy.dotPrefixesAux, Hierarchy.dotPrefixesAux, ih, hpre]
    split
    · simp
    · rfl

theorem dotPrefixesAux_nodot (s pre : Str) (hs : '.' ∉ s) :
    Hierarchy.dotPrefixesAux pre s = [] := by
  induction s generalizing pre with
  | nil => rfl
  | cons x xs ih =>
    have hx : ¬ x = '.' := fun h => hs (by simp [h])
    have hxs : '.' ∉ xs := fun h => hs (List.mem_cons_of_mem x h)
    simp [Hierarchy.dotPrefixesAux, hx, ih _ hxs]

theorem dotPrefixes_nodot (s : Str) (hs : '.' ∉ s) : Hierarchy.dotPrefixes s = [] := by
  simp [Hierarchy.dotPrefixes, dotPrefixesAux_nodot s [] hs]

theorem dotPrefixes_append_dot (p s : Str) (hp : p ≠ []) (hs : '.' ∉ s) :
    Hierarchy.dotPrefixes (p ++ '.' :: s) = p :: Hierarchy.dotPrefixes p := by
  unfold Hierarchy.dotPrefixes
  rw [dotPrefixesAux_append]
  simp [Hierarchy.dotPrefixesAux, hp, dotPrefixesAux_nodot s _ hs]

theorem getParent_nodot (h : Hierarchy) (n : Str) (hn : '.' ∉ n) :
    h.getParent (LoggerPtr.named n) = some LoggerPtr.root := by
  simp [Hierarchy.getParent, dotPrefixes_nodot n hn]

theorem getParent_append_dot (h : Hierarchy) (p s : Str) (hp : p ≠ []) (hs : '.' ∉ s)
    (hreg : p ∈ h.loggers) :
    h.getParent (LoggerPtr.named (p ++ '.' :: s)) = some (LoggerPtr.named p) := by
  simp [Hierarchy.getParent, dotPrefixes_append_dot p s hp hs, List.find?, hreg]

theorem Chain.ne_nil {reg : List Str} {n : Str} (h : Chain reg n) : n ≠ [] := by
  cases h with
  | base s hne _ _ => exact hne
  | step p s _ _ _ => simp

theorem Chain.mem {reg : List Str} {n : Str} (h : Chain reg n) : n ∈ reg := by
  cases h with
  | base s _ _ hreg => exact hreg
  | step p s _ _ hreg => exact hreg

theorem Chain.mono {reg reg2 : List Str} {n : Str} (hsub : reg ⊆ reg2) (h : Chain reg n) :
    Chain reg2 n := by
  induction h with
  | base s hne hdot hreg => exact Chain.base s hne hdot (hsub hreg)
  | step p s _ hdot hreg ih => exact Chain.step p s ih hdot (hsub hreg)

theorem getLogger_loggers_subset (h : Hierarchy) (n : Str) :
    h.loggers ⊆ (h.getLogger n).2.loggers := by
  unfold Hierarchy.getLogger
  split
  · exact fun _ hx => hx
  · exact fun _ hx => List.mem_cons_of_mem _ hx

theorem getLogger_mem (h : Hierarchy) (n : Str) : n ∈ (h.getLogger n).2.loggers := by
  unfold Hierarchy.getLogger
  split
  · assumption
  · exact List.mem_cons_self _ _

theorem Inv.of_subset (st st2 : LogState) (hd : st2.defaultLogger = st.defaultLogger)
    (hsub : st.hier.loggers ⊆ st2.hier.loggers) (h : Inv st) : Inv st2 := by
  rcases h with h | ⟨n, hn, hc⟩
  · exact Or.inl (hd.trans h)
  · exact Or.inr ⟨n, hd.trans hn, hc.mono hsub⟩

theorem Inv.of_root {st : LogState} (h : st.defaultLogger = LoggerPtr.root) : Inv st :=
  Or.inl h

theorem configureFile_default (env : Env) (f : Str) (st : LogState) :
    (Log.configureFile env f st).defaultLogger = LoggerPtr.root := by
  unfold Log.configureFile
  rfl

theorem configure_default (env : Env) (st : LogState) :
    (Log.configure env st).defaultLogger = LoggerPtr.root := by
  unfold Log.configure
  cases env.getenv with
  | none => rfl
  | some e =>
    simp only
    split
    · exact configureFile_default env e _
    · rfl

theorem configure_prop_default (env : Env) (p : Str) (st : LogState) :
    (Log.configure_prop env p st).defaultLogger = LoggerPtr.root := rfl

theorem pushContext_inv (name : Str) (st : LogState) (h : Inv st) :
    Inv (Log.pushContext name st).2 := by
  unfold Log.pushContext
  by_cases he : name = []
  · simpa [he] using h
  · by_cases hf : find name '.' = none
    · have hdot : '.' ∉ name := (find_eq_none_iff name '.').mp hf
      simp only [if_neg he, hf, ne_eq, not_true_eq_false, if_false]
      by_cases hr : st.defaultLogger.getName = rootName
      · simp only [if_pos hr]
        exact Or.inr ⟨name, rfl, Chain.base name he hdot (getLogger_mem _ _)⟩
      · simp only [if_neg hr]
        rcases h with h | ⟨n, hn, hc⟩
        · exact absurd (by rw [h]; rfl) hr
        · refine Or.inr ⟨n ++ '.' :: name, ?_, ?_⟩
          · simp [Hierarchy.getLogger, hn, LoggerPtr.getName]
          · have hmem := getLogger_mem st.hier (st.defaultLogger.getName ++ ['.'] ++ name)
            have hsub := getLogger_loggers_subset st.hier
              (st.defaultLogger.getName ++ ['.'] ++ name)
            have hname : st.defaultLogger.getName ++ ['.'] ++ name = n ++ '.' :: name := by
              simp [hn, LoggerPtr.getName]
            rw [hname] at hmem hsub
            simp only [hname]
            exact Chain.step n name (hc.mono hsub) hdot hmem
    · simpa [he, hf] using h

theorem popContext_inv (st : LogState) (h : Inv st) : Inv (Log.popContext st) := by
  rcases h with h | ⟨n, hn, hc⟩
  · simp only [Log.popContext, h, Hierarchy.getParent]
    exact Or.inl h
  · cases hc with
    | base s hne hdot hreg =>
      simp only [Log.popContext, hn, getParent_nodot st.hier n hdot]
      exact Or.inl rfl
    | step p s hp hdot hreg =>
      simp only [Log.popContext, hn, getParent_append_dot st.hier p s hp.ne_nil hdot hp.mem]
      exact Or.inr ⟨p, rfl, hp⟩

theorem popContext_eq_parentByName (st : LogState) (h : Inv st) :
    (Log.popContext st).defaultLogger = parentByName st.defaultLogger := by
  rcases h with h | ⟨n, hn, hc⟩
  · simp only [Log.popContext, h, Hierarchy.getParent, parentByName]
  · cases hc with
    | base s hne hdot hreg =>
      simp only [Log.popContext, hn, getParent_nodot st.hier n hdot, parentByName,
        (find_last_of_eq_none_iff n '.').mpr hdot]
    | step p s hp hdot hreg =>
      simp only [Log.popContext, hn, getParent_append_dot st.hier p s hp.ne_nil hdot hp.mem,
        parentByName, find_last_of_append_cons p s '.' hdot]
      simp

theorem setLevel_loggers (h : Hierarchy) (l : LoggerPtr) (level : Int) :
    (h.setLevel l level).loggers = h.loggers := by
  cases l <;> rfl

theorem getLogger_inv (n : Str) (st : LogState) (h : Inv st) : Inv (Log.getLogger n st).2 := by
  unfold Log.getLogger
  split
  · exact h
  · exact Inv.of_subset st _ rfl (getLogger_loggers_subset st.hier n) h

theorem setLevelByName_inv (n : Str) (l : Int) (st : LogState) (h : Inv st) :
    Inv (Log.setLevelByName n l st) := by
  have hg := getLogger_inv n st h
  refine Inv.of_subset (Log.getLogger n st).2 _ rfl ?_ hg
  simp only [Log.setLevelByName, Log.setLevel, setLevel_loggers]
  exact fun _ hx => hx

theorem run_inv (env : Env) (st : LogState) (op : Op) (h : Inv st) : Inv (op.run env st) := by
  cases op with
  | initLog => exact Inv.of_root rfl
  | configure => exact Inv.of_root (configure_default env st)
  | configureFile f => exact Inv.of_root (configureFile_default env f st)
  | configure_prop p => exact Inv.of_root (configure_prop_default env p st)
  | pushContext n => exact pushContext_inv n st h
  | popContext => exact popContext_inv st h
  | getLogger n => exact getLogger_inv n st h
  | setLevel n l => exact setLevelByName_inv n l st h

theorem runOps_inv (env : Env) (ops : List Op) (st : LogState) (h : Inv st) :
    Inv (runOps env st ops) := by
  induction ops generalizing st with
  | nil => exact h
  | cons op rest ih => exact ih (op.run env st) (run_inv env st op h)

theorem reachable_inv (env : Env) (st : LogState) (h : Reachable env st) : Inv st := by
  obtain ⟨st0, ops, h0, rfl⟩ := h
  exact runOps_inv env ops st0 (Inv.of_root h0)

theorem popContext_root (st : LogState) (h : st.defaultLogger = LoggerPtr.root) :
    (Log.popContext st).defaultLogger = LoggerPtr.root := by
  simp only [Log.popContext, h, Hierarchy.getParent]

theorem popContext_frame (st : LogState) :
    (Log.popContext st).hier = st.hier ∧ (Log.popContext st).calls = st.calls := by
  unfold Log.popContext
  split <;> exact ⟨rfl, rfl⟩

/-! ## Context push and pop -/

/-- C3: in every state reachable by `initLog`, the `configure` calls,
`pushContext` and `popContext` (and by `getLogger` and `setLevel` by name),
`popContext()` changes nothing but the default logger and moves it to the
logger computed from the current default logger alone: root stays root, any
other logger goes to the one named by its name without the last dotted segment,
root when there is one segment.  Hence `pushContext(s)`, then any of the three
configure calls, then `popContext()` ends at root. -/
theorem popContext_derives_from_current (env : Env) (st : LogState)
    (hr : Reachable env st) :
    (Log.popContext st).defaultLogger = parentByName st.defaultLogger ∧
    (Log.popContext st).hier = st.hier ∧
    (Log.popContext st).calls = st.calls ∧
    (∀ s f p : Str,
      (Log.popContext (Log.configure env (Log.pushContext s st).2)).defaultLogger
        = LoggerPtr.root ∧
      (Log.popContext (Log.configureFile env f (Log.pushContext s st).2)).defaultLogger
        = LoggerPtr.root ∧
      (Log.popContext (Log.configure_prop env p (Log.pushContext s st).2)).defaultLogger
        = LoggerPtr.root) :=
  ⟨popContext_eq_parentByName st (reachable_inv env st hr),
    (popContext_frame st).1, (popContext_frame st).2,
    fun _ f p =>
      ⟨popContext_root _ (configure_default env _),
        popContext_root _ (configureFile_default env f _),
        popContext_root _ (configure_prop_default env p _)⟩⟩

theorem popContext_derives_from_current_witness :
    Reachable Env.unset
      (runOps Env.unset LogState.start [Op.pushContext "a".toList, Op.pushContext "b".toList]) ∧
    (runOps Env.unset LogState.start
      [Op.pushContext "a".toList, Op.pushContext "b".toList]).defaultLogger
      = LoggerPtr.named "a.b".toList ∧
    (Log.popContext (runOps Env.unset LogState.start
      [Op.pushContext "a".toList, Op.pushContext "b".toList])).defaultLogger
      = LoggerPtr.named "a".toList ∧
    (Log.popContext (Log.configure Env.unset (Log.pushContext "c".toList
      (runOps Env.unset LogState.start
        [Op.pushContext "a".toList, Op.pushContext "b".toList])).2)).defaultLogger
      = LoggerPtr.root :=
  ⟨⟨LogState.start, _, rfl, rfl⟩, by decide,
    ((popContext_derives_from_current Env.unset _ ⟨LogState.start, _, rfl, rfl⟩).1).trans
      (by decide),
    ((popContext_derives_from_current Env.unset
      (runOps Env.unset LogState.start [Op.pushContext "a".toList, Op.pushContext "b".toList])
      ⟨LogState.start, _, rfl, rfl⟩).2.2.2 "c".toList [] []).1⟩

theorem pushContext_valid (name : Str) (st : LogState) (hne : name ≠ []) (hdot : '.' ∉ name) :
    Log.pushContext name st =
      (Except.ok (),
        { st with
          defaultLogger := LoggerPtr.named
            (if st.defaultLogger.getName = rootName then name
              else st.defaultLogger.getName ++ ['.'] ++ name),
          hier := (st.hier.getLogger
            (if st.defaultLogger.getName = rootName then name
              else st.defaultLogger.getName ++ ['.'] ++ name)).2 }) := by
  have hf : find name '.' = none := (find_eq_none_iff name '.').mpr hdot
  simp [Log.pushContext, hne, hf, Hierarchy.getLogger]

/-- From the root logger, for non-empty dot-free segments `s1`, `s2` with `s1`
different from the literal `"root"`, two pushes make the default logger name
`s1.s2` and two pops return to root. -/
theorem pushContext_twice_popContext_twice (st : LogState) (s1 s2 : Str)
    (hroot : st.defaultLogger = LoggerPtr.root)
    (h1 : s1 ≠ []) (hd1 : '.' ∉ s1) (h2 : s2 ≠ []) (hd2 : '.' ∉ s2)
    (hne : s1 ≠ rootName) :
    Log.getDefaultLoggerName (Log.pushContext s2 (Log.pushContext s1 st).2).2
      = s1 ++ ['.'] ++ s2 ∧
    (Log.popContext (Log.popContext
      (Log.pushContext s2 (Log.pushContext s1 st).2).2)).defaultLogger = LoggerPtr.root ∧
    Log.getDefaultLoggerName (Log.popContext (Log.popContext
      (Log.pushContext s2 (Log.pushContext s1 st).2).2)) = [] := by
  have hp1 : (Log.pushContext s1 st).2.defaultLogger = LoggerPtr.named s1 := by
    rw [pushContext_valid s1 st h1 hd1]
    simp [hroot, LoggerPtr.getName]
  have hreg1 : s1 ∈ (Log.pushContext s1 st).2.hier.loggers := by
    rw [pushContext_valid s1 st h1 hd1]
    simp only [hroot, LoggerPtr.getName, if_true]
    exact getLogger_mem _ _
  have hp2 : (Log.pushContext s2 (Log.pushContext s1 st).2).2.defaultLogger
      = LoggerPtr.named (s1 ++ '.' :: s2) := by
    rw [pushContext_valid s2 _ h2 hd2]
    simp [hp1, LoggerPtr.getName, hne]
  have hreg2 : s1 ∈ (Log.pushContext s2 (Log.pushContext s1 st).2).2.hier.loggers := by
    rw [pushContext_valid s2 _ h2 hd2]
    exact getLogger_loggers_subset _ _ hreg1
  have hpop1 : (Log.popContext (Log.pushContext s2 (Log.pushContext s1 st).2).2).defaultLogger
      = LoggerPtr.named s1 := by
    simp only [Log.popContext, hp2, getParent_append_dot _ s1 s2 h1 hd2 hreg2]
  have hpop2 : (Log.popContext (Log.popContext
      (Log.pushContext s2 (Log.pushContext s1 st).2).2)).defaultLogger = LoggerPtr.root := by
    have hg : (Log.popContext (Log.pushContext s2 (Log.pushContext s1 st).2).2).hier.getParent
        (LoggerPtr.named s1) = some LoggerPtr.root := getParent_nodot _ s1 hd1
    rw [Log.popContext, hpop1, hg]
  refine ⟨?_, hpop2, ?_⟩
  · have hno : ¬ s1 ++ '.' :: s2 = rootName := by
      intro h
      have hmem : '.' ∈ s1 ++ '.' :: s2 := by simp
      rw [h] at hmem
      exact absurd hmem (by decide)
    simp [Log.getDefaultLoggerName, hp2, LoggerPtr.getName, hno]
  · simp [Log.getDefaultLoggerName, hpop2, LoggerPtr.getName]

/-- C2 (evaluation at the failing input): from the start state,
`pushContext("root")` succeeds but leaves `getDefaultLoggerName()` empty, and a
following `pushContext("a")` makes the default logger name `"a"`, not
`"root.a"`. -/
theorem pushContext_root_segment_is_lost :
    (Log.pushContext "root".toList LogState.start).1 = Except.ok () ∧
    Log.getDefaultLoggerName (Log.pushContext "root".toList LogState.start).2 = [] ∧
    (Log.pushContext "a".toList (Log.pushContext "root".toList LogState.start).2).1
      = Except.ok () ∧
    Log.getDefaultLoggerName
      (Log.pushContext "a".toList (Log.pushContext "root".toList LogState.start).2).2
      = "a".toList ∧
    Log.getDefaultLoggerName
      (Log.pushContext "a".toList (Log.pushContext "root".toList LogState.start).2).2
      ≠ "root.a".toList := by
  refine ⟨rfl, by decide, rfl, by decide, by decide⟩

end LsstLog
